import Mathlib

/-
Verification of the kopia object-store core (repo/object_reader.go and
repo/initialize.go) against its natural-language specification.

The Go code is shallowly embedded: pure functions become Lean functions,
stateful code threads explicit state (Stats, Storage), Go panics are a
distinguished constructor of GoResult, and Go (value, error) returns are
modelled as pairs with Option Err.  External collaborators that are not in
the analysed sources (blob storage, the formatter, the pack manager, the
block-size cache, jsonstream) are parameters gathered in environment
structures; every function of the repository itself is translated
line-by-line from the source.  Unbounded Go loops are embedded with an
explicit fuel argument that is always instantiated strictly above the
loop's iteration bound, so that the embedding stays executable.
-/

set_option autoImplicit false

namespace Kopia

/-- Error vocabulary of the embedded code.  `eof` is io.EOF, `unexpectedEOF`
is io.ErrUnexpectedEOF, `blockNotFound` is blob.ErrBlockNotFound,
`invalidSeek` is the "Invalid seek." error of Seek, `integrityMismatch`
is the "invalid checksum" error of verifyChecksum (carrying the requested
block id and the recomputed block name), `cryptoInit` wraps an
initCrypto failure, and `storage`/`other` carry arbitrary messages. -/
inductive Err where
  | eof : Err
  | unexpectedEOF : Err
  | blockNotFound : Err
  | invalidSeek : Err
  | integrityMismatch : String → String → Err
  | cryptoInit : String → Err
  | storage : String → Err
  | other : String → Err
deriving DecidableEq

/-- Outcome of running a piece of Go code: either a value or a runtime
panic (with the panic message). -/
inductive GoResult (α : Type) where
  | ok : α → GoResult α
  | panicked : String → GoResult α
deriving DecidableEq

/-- ObjectID as in the Go source: a struct whose fields select the variant
(StorageBlock for raw/packed ids, Indirect a pointer to another id,
BinaryContent/TextContent for inline ids, Sect = Section a window over a
base id).  Bytes are modelled as List Nat. -/
inductive ObjectID where
  | mk : String → Option ObjectID → Option (List Nat) → String → Option (Int × Int × ObjectID) → ObjectID

/-- Accessor for the StorageBlock field of an ObjectID. -/
def ObjectID.StorageBlock : ObjectID → String
  | .mk sb _ _ _ _ => sb

/-- Replace the StorageBlock field, as in
`objectID.StorageBlock = prefix + objectID.StorageBlock`. -/
def ObjectID.withStorageBlock : ObjectID → String → ObjectID
  | .mk _ i b t s, sb => .mk sb i b t s

/-- The zero value of the ObjectID struct (`var NullObjectID ObjectID`). -/
def NullObjectID : ObjectID := .mk "" none none "" none

/-- indirectObjectEntry: one row of the seek table, `{Start, Length, Object}`. -/
structure indirectObjectEntry where
  Start : Int
  Length : Int
  Object : ObjectID

/-- endOffset from object_reader.go: `i.Start + i.Length`. -/
def indirectObjectEntry.endOffset (i : indirectObjectEntry) : Int :=
  i.Start + i.Length

/-- objectReader from object_reader.go, minus the repo pointer (the
repository's Open for chunk objects is abstracted by an environment
function passed to the operations).  currentChunkData nil is `none`. -/
structure objectReader where
  seekTable : List indirectObjectEntry
  currentPosition : Int
  totalLength : Int
  currentChunkIndex : Nat
  currentChunkData : Option (List Nat)
  currentChunkPosition : Int

/-- Entry `k` of a seek table, with the zero entry as the out-of-range
default (only used out of range, where the Go code would panic). -/
def ent (t : List indirectObjectEntry) (k : Nat) : indirectObjectEntry :=
  (t[k]?).getD ⟨0, 0, NullObjectID⟩

/-- Environment of the indirect object reader: `openFull oid` stands for
`repo.Open(oid)` followed by reading the chunk's byte stream in full. -/
def ChunkEnv : Type := ObjectID → Except Err (List Nat)

/-- openCurrentChunk from object_reader.go: opens seekTable[currentChunkIndex]
through the repository and reads exactly st.Length bytes into the chunk
buffer (io.ReadFull semantics: io.EOF when nothing could be read,
io.ErrUnexpectedEOF on a short read).  The outer GoResult carries the
panic of an out-of-range index or a negative make([]byte, st.Length);
the inner Except is the Go error return value. -/
def openCurrentChunk (env : ChunkEnv) (r : objectReader) : GoResult (Except Err objectReader) :=
  match r.seekTable[r.currentChunkIndex]? with
  | none => .panicked ("index out of range")
  | some st =>
    if st.Length < 0 then .panicked ("makeslice: len out of range")
    else
      match env st.Object with
      | .error e => .ok (.error e)
      | .ok bs =>
        if bs.length = 0 ∧ 0 < st.Length then .ok (.error Err.eof)
        else if (bs.length : Int) < st.Length then .ok (.error Err.unexpectedEOF)
        else .ok (.ok { r with currentChunkData := some (bs.take st.Length.toNat),
                               currentChunkPosition := 0 })

/-- The binary-search loop of findChunkIndexForOffset.  `left`/`right` are
the Go ints; the fuel argument strictly exceeds the iteration count
(the searched width shrinks by at least one per iteration).  Falling out
of the loop runs the source's `panic("Unreachable code")`. -/
def findChunkLoop (t : List indirectObjectEntry) (offset : Int) :
    Nat → Int → Int → GoResult Nat
  | 0, _, _ => .panicked ("fuel")
  | fuel + 1, left, right =>
    if left ≤ right then
      let middle := (left + right) / 2
      match t[middle.toNat]? with
      | none => .panicked ("index out of range")
      | some st =>
        if offset < st.Start then findChunkLoop t offset fuel left (middle - 1)
        else if st.endOffset ≤ offset then findChunkLoop t offset fuel (middle + 1) right
        else .ok middle.toNat
    else .panicked ("Unreachable code")

/-- findChunkIndexForOffset from object_reader.go: binary search over the
seek table with left = 0, right = len(seekTable)-1. -/
def findChunkIndexForOffset (t : List indirectObjectEntry) (offset : Int) : GoResult Nat :=
  findChunkLoop t offset (t.length + 1) 0 ((t.length : Int) - 1)

/-- Result of the Read copy loop: either the loop finished (via break or an
exhausted buffer) having produced `acc`, or the Go code executed
`return 0, err` after a failed openCurrentChunk. -/
inductive readOutcome where
  | bytes : List Nat → objectReader → readOutcome
  | earlyErr : Err → objectReader → readOutcome

/-- The `for remaining > 0` loop of Read.  Each iteration either copies at
least one byte, closes an exhausted chunk and advances the index, or
opens the current chunk, so the fuel chosen by Read strictly exceeds the
number of iterations. -/
def readLoop (env : ChunkEnv) : Nat → objectReader → Nat → GoResult readOutcome
  | 0, _, _ => .panicked ("fuel")
  | fuel + 1, r, remaining =>
    if remaining = 0 then .ok (.bytes [] r)
    else
      match r.currentChunkData with
      | some d =>
        let toCopy : Int := (d.length : Int) - r.currentChunkPosition
        if toCopy = 0 then
          readLoop env fuel
            { r with currentChunkData := none, currentChunkIndex := r.currentChunkIndex + 1 }
            remaining
        else
          let toCopy := if (remaining : Int) < toCopy then (remaining : Int) else toCopy
          if toCopy < 0 ∨ r.currentChunkPosition < 0 then .panicked ("slice bounds out of range")
          else
            let copied := (d.drop r.currentChunkPosition.toNat).take toCopy.toNat
            let r' := { r with currentChunkPosition := r.currentChunkPosition + toCopy,
                               currentPosition := r.currentPosition + toCopy }
            match readLoop env fuel r' (remaining - toCopy.toNat) with
            | .panicked m => .panicked m
            | .ok (.bytes acc r'') => .ok (.bytes (copied ++ acc) r'')
            | .ok (.earlyErr e r'') => .ok (.earlyErr e r'')
      | none =>
        if r.currentChunkIndex < r.seekTable.length then
          match openCurrentChunk env r with
          | .panicked m => .panicked m
          | .ok (.error e) => .ok (.earlyErr e r)
          | .ok (.ok r') => readLoop env fuel r' remaining
        else .ok (.bytes [] r)

/-- Read from object_reader.go, for a destination buffer of length
`bufferLen`; returns the bytes copied into the buffer, the Go error value
(io.EOF exactly when readBytes == 0 at the end of the loop; a failed
chunk open is returned as `return 0, err`) and the updated reader. -/
def Read (env : ChunkEnv) (r : objectReader) (bufferLen : Nat) :
    GoResult (List Nat × Option Err × objectReader) :=
  match readLoop env (bufferLen + 2 * r.seekTable.length + 8) r bufferLen with
  | .panicked m => .panicked m
  | .ok (.earlyErr e r') => .ok ([], some e, r')
  | .ok (.bytes acc r') =>
    if acc.length = 0 then .ok ([], some Err.eof, r') else .ok (acc, none, r')

/-- The whence = 0 (io.SeekStart) body of Seek from object_reader.go.
Negative offsets fail with "Invalid seek." returning -1; offsets past
totalLength are clamped to totalLength; the chunk for the target offset
is located by binary search; a failed openCurrentChunk is ignored
exactly as in the source (`r.openCurrentChunk()` with no error check). -/
def seekStart (env : ChunkEnv) (r : objectReader) (offset : Int) :
    GoResult (Int × Option Err × objectReader) :=
  if offset < 0 then .ok (-1, some Err.invalidSeek, r)
  else
    let offset := if r.totalLength < offset then r.totalLength else offset
    match findChunkIndexForOffset r.seekTable offset with
    | .panicked m => .panicked m
    | .ok index =>
      match r.seekTable[index]? with
      | none => .panicked ("index out of range")
      | some st =>
        let chunkStartOffset := st.Start
        let r :=
          if index ≠ r.currentChunkIndex then
            { r with currentChunkData := none, currentChunkIndex := index }
          else r
        match (if r.currentChunkData = none then openCurrentChunk env r else .ok (.ok r)) with
        | .panicked m => .panicked m
        | .ok res =>
          let r := match res with
            | .ok r' => r'
            | .error _ => r
          let r := { r with currentChunkPosition := offset - chunkStartOffset,
                            currentPosition := offset }
          .ok (r.currentPosition, none, r)

/-- Seek from object_reader.go: whence 1 and 2 recurse into the
whence-start case with the adjusted absolute offset. -/
def Seek (env : ChunkEnv) (r : objectReader) (offset : Int) (whence : Int) :
    GoResult (Int × Option Err × objectReader) :=
  if whence = 1 then seekStart env r (r.currentPosition + offset)
  else if whence = 2 then seekStart env r (r.totalLength + offset)
  else seekStart env r offset

/-- The seek-table invariants stated by the spec: nonempty, first entry at
offset 0, entries contiguous, starts strictly ascending, lengths
nonnegative (lengths are u64 in the spec's data model). -/
def tableInv (t : List indirectObjectEntry) : Prop :=
  0 < t.length ∧ (ent t 0).Start = 0 ∧
  (∀ k, k < t.length → k + 1 < t.length →
    (ent t (k + 1)).Start = (ent t k).Start + (ent t k).Length) ∧
  (∀ j, j < t.length → ∀ k, k < t.length → j < k → (ent t j).Start < (ent t k).Start) ∧
  (∀ k, k < t.length → 0 ≤ (ent t k).Length)

instance tableInv_decidable (t : List indirectObjectEntry) : Decidable (tableInv t) := by
  unfold tableInv
  exact inferInstance

/-- The logical length of the object described by a seek table: the last
entry's end offset. -/
def tableLen (t : List indirectObjectEntry) : Int :=
  (ent t (t.length - 1)).endOffset

/-- Reachable-state invariant of the indirect object reader: the seek table
satisfies the spec invariants, totalLength is the last entry's end, and
the cursor state is consistent (inside the current chunk when one is
loaded; at the start of the chunk about to be opened, or at end of
object, when none is). -/
def wfReader (r : objectReader) : Prop :=
  tableInv r.seekTable ∧
  r.totalLength = tableLen r.seekTable ∧
  r.currentChunkIndex ≤ r.seekTable.length ∧
  (match r.currentChunkData with
   | some d =>
     r.currentChunkIndex < r.seekTable.length ∧
     (d.length : Int) = (ent r.seekTable r.currentChunkIndex).Length ∧
     0 ≤ r.currentChunkPosition ∧ r.currentChunkPosition ≤ (d.length : Int) ∧
     r.currentPosition = (ent r.seekTable r.currentChunkIndex).Start + r.currentChunkPosition
   | none =>
     (r.currentChunkIndex < r.seekTable.length ∧
       r.currentPosition = (ent r.seekTable r.currentChunkIndex).Start) ∨
     (r.currentChunkIndex = r.seekTable.length ∧ r.currentPosition = r.totalLength))

instance wfReader_decidable (r : objectReader) : Decidable (wfReader r) := by
  unfold wfReader
  rcases hd : r.currentChunkData with _ | d <;> exact inferInstance

/-- A chunk environment is adequate for a seek table when every referenced
chunk object opens successfully and yields at least entry.Length bytes. -/
def envGood (env : ChunkEnv) (t : List indirectObjectEntry) : Prop :=
  ∀ e ∈ t, ∃ b, env e.Object = Except.ok b ∧ e.Length ≤ (b.length : Int)

/-- Fuel measure of a reader state for the Read loop: strictly decreases
along every recursive call of readLoop that does not shrink the
remaining buffer. -/
def readMeasure (r : objectReader) : Nat :=
  match r.currentChunkData with
  | some _ => 2 * (r.seekTable.length + 2 - min r.currentChunkIndex (r.seekTable.length + 2)) + 1
  | none =>
    if r.currentChunkIndex < r.seekTable.length then
      2 * (r.seekTable.length + 2 - r.currentChunkIndex) + 2
    else 0

/-- The atomic statistics counters of the ObjectManager (§3 Stats).  Go
int32/int64 counters; overflow is immaterial to the claims, so Nat. -/
structure Stats where
  hashedBlocks : Nat := 0
  hashedBytes : Nat := 0
  checkedBlocks : Nat := 0
  presentBlocks : Nat := 0
  encryptedBytes : Nat := 0
  writtenBlocks : Nat := 0
  writtenBytes : Nat := 0
  readBlocks : Nat := 0
  readBytes : Nat := 0
  decryptedBytes : Nat := 0
  validBlocks : Nat := 0
  invalidBlocks : Nat := 0
deriving DecidableEq

/-- Observable side effects of the write path, recorded in call order:
the block-size-cache query, the formatter encryption, the blob-storage
put and the pack-manager hand-off. -/
inductive Effect where
  | getSize : String → Effect
  | encryptOp : List Nat → ObjectID → Effect
  | putBlock : String → List Nat → Effect
  | addToPack : String → String → List Nat → Effect

/-- Environment of hashEncryptAndWrite: the collaborators that live outside
the analysed sources.  computeObjectID is formatter.ComputeObjectID;
packEnabled is packMgr.enabled(); addToPack is packMgr.AddToPack (a Go
(ObjectID, error) pair); getSize is blockSizeCache.getSize; encrypt is
formatter.Encrypt; putBlock is storage.PutBlock;
maxPackedContentLength is format.MaxPackedContentLength. -/
structure HEWEnv where
  computeObjectID : List Nat → ObjectID
  packEnabled : Bool
  addToPack : String → String → List Nat → ObjectID × Option Err
  getSize : String → Except Err Int
  encrypt : List Nat → ObjectID → Int → Except Err (List Nat)
  putBlock : String → List Nat → Option Err
  maxPackedContentLength : Int

/-- The pack branch guard of hashEncryptAndWrite (the `if` at
initialize.go:333): packing not disabled for the call, enabled
globally, positive max packed content length, and the chunk no larger
than it. -/
abbrev packTaken (env : HEWEnv) (data : List Nat) (disablePacking : Bool) : Prop :=
  disablePacking = false ∧ env.packEnabled = true ∧ 0 < env.maxPackedContentLength ∧
    (data.length : Int) ≤ env.maxPackedContentLength

/-- The encrypt-and-store tail of hashEncryptAndWrite (reached when the
block is not already present): counts encrypted bytes, encrypts, counts
written blocks/bytes and puts the ciphertext, returning NullObjectID on
any error. -/
def encryptAndPut (env : HEWEnv) (stats : Stats) (data : List Nat) (objectID : ObjectID)
    (effects : List Effect) : (ObjectID × Option Err) × Stats × List Effect :=
  let stats := { stats with encryptedBytes := stats.encryptedBytes + data.length }
  match env.encrypt data objectID 0 with
  | .error e => ((NullObjectID, some e), stats, effects ++ [Effect.encryptOp data objectID])
  | .ok cipher =>
    let stats := { stats with writtenBlocks := stats.writtenBlocks + 1,
                              writtenBytes := stats.writtenBytes + cipher.length }
    let effects := effects ++ [Effect.encryptOp data objectID,
                               Effect.putBlock objectID.StorageBlock cipher]
    match env.putBlock objectID.StorageBlock cipher with
    | some e => ((NullObjectID, some e), stats, effects)
    | none => ((objectID, none), stats, effects)

/-- hashEncryptAndWrite from the ObjectManager: hash, prepend the prefix to
the storage block name, count hashed blocks/bytes; if packing applies,
hand `(packGroup, prefix+objectID.StorageBlock, data)` to the pack
manager (the source prepends the prefix a second time here); otherwise
consult the block-size cache, dedupe on an exact size match, abort on a
cache error other than not-found, else encrypt and store. -/
def hashEncryptAndWrite (env : HEWEnv) (stats : Stats) (packGroup : String) (data : List Nat)
    (pfx : String) (disablePacking : Bool) : (ObjectID × Option Err) × Stats × List Effect :=
  let objectID := env.computeObjectID data
  let objectID := objectID.withStorageBlock (pfx ++ objectID.StorageBlock)
  let stats := { stats with hashedBlocks := stats.hashedBlocks + 1,
                            hashedBytes := stats.hashedBytes + data.length }
  if packTaken env data disablePacking then
    (env.addToPack packGroup (pfx ++ objectID.StorageBlock) data, stats,
      [Effect.addToPack packGroup (pfx ++ objectID.StorageBlock) data])
  else
    let stats := { stats with checkedBlocks := stats.checkedBlocks + 1 }
    let effects := [Effect.getSize objectID.StorageBlock]
    match env.getSize objectID.StorageBlock with
    | .ok blockSize =>
      if blockSize = (data.length : Int) then
        ((objectID, none), { stats with presentBlocks := stats.presentBlocks + 1 }, effects)
      else encryptAndPut env stats data objectID effects
    | .error e =>
      if e = Err.blockNotFound then encryptAndPut env stats data objectID effects
      else ((NullObjectID, some e), stats, effects)

/-- The readers the manager's Open can build: a bytes.Reader over in-memory
data (readerWithData), the chunk-stitching indirect reader, and a
section window over a base reader. -/
inductive Rdr where
  | withData : List Nat → Int → Rdr
  | indirect : objectReader → Rdr
  | sectionR : Int → Int → Rdr → Rdr

/-- Environment of the read path: blockIDToPackSection is the pack
manager's lookup (pack base id, start, length); getBlock is
storage.GetBlock(name, offset, length) with length -1 meaning to-end;
decrypt is formatter.Decrypt(payload, id, skip); computeObjectID is
formatter.ComputeObjectID. -/
structure RawEnv where
  blockIDToPackSection : String → Except Err (Option (ObjectID × Int × Int))
  getBlock : String → Int → Int → Except Err (List Nat)
  decrypt : List Nat → ObjectID → Int → Except Err (List Nat)
  computeObjectID : List Nat → ObjectID

/-- verifyChecksum from the ObjectManager: recompute the id of the
decrypted data and require it to be a suffix of the requested block id
(strings.HasSuffix(blockID, expected.StorageBlock)); count a valid or
invalid block accordingly. -/
def verifyChecksum (env : RawEnv) (stats : Stats) (data : List Nat) (blockID : String) :
    Option Err × Stats :=
  let expected := env.computeObjectID data
  if (expected.StorageBlock.data.isSuffixOf blockID.data) = false then
    (some (Err.integrityMismatch blockID expected.StorageBlock),
      { stats with invalidBlocks := stats.invalidBlocks + 1 })
  else
    (none, { stats with validBlocks := stats.validBlocks + 1 })

/-- newRawReader from the ObjectManager: resolve a possible pack section,
fetch the blob (the pack window, or the whole blob), count read
blocks/bytes, decrypt (counting decrypted bytes of the returned
payload), verify the checksum against the requested block id, and wrap
the plaintext in a readerWithData. -/
def newRawReader (env : RawEnv) (stats : Stats) (objectID : ObjectID) :
    Except Err Rdr × Stats :=
  match env.blockIDToPackSection objectID.StorageBlock with
  | .error e => (.error e, stats)
  | .ok psec =>
    let fetched : Except Err (List Nat × ObjectID × Int) :=
      match psec with
      | some (base, pstart, plength) =>
        (env.getBlock base.StorageBlock pstart plength).map (fun pl => (pl, base, pstart))
      | none =>
        (env.getBlock objectID.StorageBlock 0 (-1)).map (fun pl => (pl, objectID, 0))
    match fetched with
    | .error e => (.error e, stats)
    | .ok (payload, underlying, skip) =>
      let stats := { stats with readBlocks := stats.readBlocks + 1,
                                readBytes := stats.readBytes + payload.length }
      match env.decrypt payload underlying skip with
      | .error e => (.error e, stats)
      | .ok plain =>
        let stats := { stats with decryptedBytes := stats.decryptedBytes + plain.length }
        match verifyChecksum env stats plain objectID.StorageBlock with
        | (some e, stats') => (.error e, stats')
        | (none, stats') => (.ok (Rdr.withData plain 0), stats')

/-- Environment of Open: the read-path collaborators plus parseStream,
which models the external jsonstream reader used by flattenListChunk
(Modelled from the spec: a framed IndirectEntry record stream; a framing
failure is an error, otherwise the full entry list is produced). -/
structure OpenEnv where
  raw : RawEnv
  parseStream : List Nat → Except Err (List indirectObjectEntry)

/-- flattenListChunk from the ObjectManager: parse the pointed-to chunk as
a framed IndirectEntry stream into the seek table.  The jsonstream
reader is external code, abstracted by env.parseStream over the chunk's
byte contents. -/
def flattenListChunk (env : OpenEnv) (contents : List Nat) :
    Except Err (List indirectObjectEntry) :=
  env.parseStream contents

/-- The byte contents remaining in a reader, used when flattenListChunk
consumes the reader that Open just produced.  The analysed inputs only
ever flatten data-backed readers; other shapes are out of this model's
scope and map to an error. -/
def rdrContents : Rdr → Except Err (List Nat)
  | .withData d pos => .ok (d.drop pos.toNat)
  | _ => .error (Err.other ("unsupported reader shape"))

/-- Open from the ObjectManager, dispatching on the ObjectID variant in
source order: Section (wrapped in a section reader, Modelled from the
spec for the part living in objectsection.go), Indirect (open the list
chunk, flatten it, take the last entry's endOffset as totalLength —
an index-out-of-range panic when the parsed seek table is empty),
BinaryContent and TextContent (in-memory readers), otherwise a raw
reader.  The fuel bounds the ObjectID nesting depth. -/
def Open (env : OpenEnv) : Nat → Stats → ObjectID → GoResult (Except Err Rdr × Stats)
  | 0, _, _ => .panicked ("fuel")
  | fuel + 1, stats, .mk sb ind bin txt sect =>
    match sect with
    | some (start, length, base) =>
      match Open env fuel stats base with
      | .panicked m => .panicked m
      | .ok (.error _, stats') =>
        .ok (.error (Err.other ("cannot create base reader")), stats')
      | .ok (.ok br, stats') => .ok (.ok (Rdr.sectionR start length br), stats')
    | none =>
      match ind with
      | some inner =>
        match Open env fuel stats inner with
        | .panicked m => .panicked m
        | .ok (.error e, stats') => .ok (.error e, stats')
        | .ok (.ok rd, stats') =>
          match rdrContents rd with
          | .error e => .ok (.error e, stats')
          | .ok contents =>
            match flattenListChunk env contents with
            | .error e => .ok (.error e, stats')
            | .ok seekTable =>
              match seekTable.getLast? with
              | none => .panicked ("index out of range")
              | some lastE =>
                .ok (.ok (Rdr.indirect
                  { seekTable := seekTable, currentPosition := 0,
                    totalLength := lastE.endOffset, currentChunkIndex := 0,
                    currentChunkData := none, currentChunkPosition := 0 }), stats)
      | none =>
        match bin with
        | some b => .ok (.ok (Rdr.withData b 0), stats)
        | none =>
          if 0 < txt.length then
            .ok (.ok (Rdr.withData (txt.data.map Char.toNat) 0), stats)
          else
            let res := newRawReader env.raw stats (.mk sb ind bin txt sect)
            .ok res

/-- auth.SecurityOptions as used by metadataFormatFromOptions. -/
structure SecurityOptions where
  KeyDerivationAlgorithm : String
  UniqueID : List Nat
deriving DecidableEq

/-- config.MetadataFormat as built by metadataFormatFromOptions. -/
structure MetadataFormat where
  securityOptions : SecurityOptions
  Version : String
  EncryptionAlgorithm : String
deriving DecidableEq

/-- config.RepositoryObjectFormat as built by
repositoryObjectFormatFromOptions.  Go byte slices that may be nil are
Option (List Nat): HMACSecret is set to nil by the noHMAC option. -/
structure RepositoryObjectFormat where
  Version : Int
  Splitter : String
  ObjectFormat : String
  HMACSecret : Option (List Nat)
  MasterKey : Option (List Nat)
  MaxBlockSize : Int
  MinBlockSize : Int
  AvgBlockSize : Int
  MaxPackedContentLength : Int
  MaxPackFileLength : Int
deriving DecidableEq

/-- NewRepositoryOptions from initialize.go; all fields optional, zero
values meaning "apply the default". -/
structure NewRepositoryOptions where
  UniqueID : Option (List Nat) := none
  MetadataEncryptionAlgorithm : String := ""
  KeyDerivationAlgorithm : String := ""
  ObjectFormat : String := ""
  ObjectHMACSecret : Option (List Nat) := none
  ObjectEncryptionKey : Option (List Nat) := none
  Splitter : String := ""
  MinBlockSize : Int := 0
  AvgBlockSize : Int := 0
  MaxBlockSize : Int := 0
  MaxPackedContentLength : Int := 0
  MaxPackFileLength : Int := 0
  noHMAC : Bool := false

/-- applyDefaultInt from initialize.go. -/
def applyDefaultInt (v d : Int) : Int := if v = 0 then d else v

/-- applyDefaultString from initialize.go. -/
def applyDefaultString (v d : String) : String := if v = "" then d else v

/-- applyDefaultRandomBytes from initialize.go; crypto/rand is the `rand`
parameter. -/
def applyDefaultRandomBytes (rand : Nat → List Nat) (b : Option (List Nat)) (n : Nat) :
    List Nat :=
  match b with
  | none => rand n
  | some bs => bs

/-- Modelled from the spec (§6 on-blob layout): the block id of the
plaintext format descriptor blob; the constant itself lives outside the
analysed sources. -/
def formatBlockID : String := "format"

/-- Modelled from the spec (§6 on-blob layout): the block id of the
encrypted repository configuration blob. -/
def repositoryConfigBlockID : String := "repository"

/-- Modelled from the spec: the default algorithm identifiers and sizes
referenced by initialize.go but defined outside the analysed sources.
The concrete strings are irrelevant to the claims. -/
def DefaultKeyDerivationAlgorithm : String := "default-key-derivation"

/-- Modelled from the spec: default metadata encryption algorithm name. -/
def DefaultMetadataEncryptionAlgorithm : String := "default-metadata-encryption"

/-- Modelled from the spec: default object splitter name. -/
def DefaultObjectSplitter : String := "default-splitter"

/-- Modelled from the spec: default object format name. -/
def DefaultObjectFormat : String := "default-object-format"

/-- metadataFormatFromOptions from initialize.go. -/
def metadataFormatFromOptions (rand : Nat → List Nat) (opt : NewRepositoryOptions) :
    MetadataFormat :=
  { securityOptions :=
      { KeyDerivationAlgorithm :=
          applyDefaultString opt.KeyDerivationAlgorithm DefaultKeyDerivationAlgorithm,
        UniqueID := applyDefaultRandomBytes rand opt.UniqueID 32 },
    Version := "1",
    EncryptionAlgorithm :=
      applyDefaultString opt.MetadataEncryptionAlgorithm DefaultMetadataEncryptionAlgorithm }

/-- repositoryObjectFormatFromOptions from initialize.go, including the
noHMAC override that clears the HMAC secret. -/
def repositoryObjectFormatFromOptions (rand : Nat → List Nat) (opt : NewRepositoryOptions) :
    RepositoryObjectFormat :=
  let f : RepositoryObjectFormat :=
    { Version := 1,
      Splitter := applyDefaultString opt.Splitter DefaultObjectSplitter,
      ObjectFormat := applyDefaultString opt.ObjectFormat DefaultObjectFormat,
      HMACSecret := some (applyDefaultRandomBytes rand opt.ObjectHMACSecret 32),
      MasterKey := some (applyDefaultRandomBytes rand opt.ObjectEncryptionKey 32),
      MaxBlockSize := applyDefaultInt opt.MaxBlockSize (20 * 1048576),
      MinBlockSize := applyDefaultInt opt.MinBlockSize (10 * 1048576),
      AvgBlockSize := applyDefaultInt opt.AvgBlockSize (16 * 1048576),
      MaxPackedContentLength := applyDefaultInt opt.MaxPackedContentLength (4 * 1048576),
      MaxPackFileLength := applyDefaultInt opt.MaxPackFileLength (20 * 1048576) }
  if opt.noHMAC then { f with HMACSecret := none } else f

/-- The blob store as a name-to-bytes map (assoc list); PutBlock failures
are outside the scope of the claims, so puts always succeed. -/
abbrev Storage : Type := List (String × List Nat)

/-- PutBlock on the map-backed storage model: replace an existing blob of
the same name or append a new one. -/
def putBlob : Storage → String → List Nat → Storage
  | [], name, data => [(name, data)]
  | (n, d) :: rest, name, data =>
    if n = name then (name, data) :: rest else (n, d) :: putBlob rest name data

/-- Fetch a blob from the storage model. -/
def getBlob : Storage → String → Option (List Nat)
  | [], _ => none
  | (n, d) :: rest, name => if n = name then some d else getBlob rest name

/-- Environment of repository initialization: getMasterKey is
creds.GetMasterKey; randomBytes is crypto/rand; marshalMetadataFormat
and marshalRepoConfig stand for json.Marshal (total: marshalling these
structs cannot fail); initCrypto is MetadataManager.initCrypto (an
error message on failure); encryptMetadata models the metadata-manager
encryption that putJSON applies before storing (Modelled from the spec,
the metadata manager being outside the analysed sources). -/
structure InitEnv where
  getMasterKey : SecurityOptions → Except Err (List Nat)
  randomBytes : Nat → List Nat
  marshalMetadataFormat : MetadataFormat → List Nat
  marshalRepoConfig : RepositoryObjectFormat → List Nat
  initCrypto : MetadataFormat → List Nat → Option String
  encryptMetadata : List Nat → List Nat

/-- Initialize from initialize.go: build the metadata format (defaults
applied), derive the master key, marshal and put the format blob under
metadataBlockPfx + formatBlockID, initialize crypto, then build,
encrypt and put the repository configuration blob (putJSON, Modelled
from the spec as encrypt-and-put under metadataBlockPfx +
repositoryConfigBlockID).  There is no existence check on the format
blob. -/
def initRepository (env : InitEnv) (metadataBlockPfx : String) (st : Storage)
    (opt : Option NewRepositoryOptions) : Option Err × Storage :=
  let opt := opt.getD {}
  let format := metadataFormatFromOptions env.randomBytes opt
  match env.getMasterKey format.securityOptions with
  | .error e => (some e, st)
  | .ok masterKey =>
    let formatBytes := env.marshalMetadataFormat format
    let st := putBlob st (metadataBlockPfx ++ formatBlockID) formatBytes
    match env.initCrypto format masterKey with
    | some msg => (some (Err.cryptoInit msg), st)
    | none =>
      let rc := repositoryObjectFormatFromOptions env.randomBytes opt
      let st := putBlob st (metadataBlockPfx ++ repositoryConfigBlockID)
        (env.encryptMetadata (env.marshalRepoConfig rc))
      (none, st)

/-- The ObjectID a hashEncryptAndWrite call computes for a chunk: the
formatter's id with the prefix prepended to the storage block name. -/
def hewOID (env : HEWEnv) (data : List Nat) (pfx : String) : ObjectID :=
  (env.computeObjectID data).withStorageBlock (pfx ++ (env.computeObjectID data).StorageBlock)

/-- No ciphertext was produced and nothing was uploaded: the effect trace
contains neither an encryption nor a storage put. -/
def noStorePerformed (effects : List Effect) : Prop :=
  (∀ n d, Effect.putBlock n d ∉ effects) ∧ (∀ d o, Effect.encryptOp d o ∉ effects)

/-! Concrete fixtures used by counterexamples and witnesses. -/

/-- The all-zero statistics record. -/
def stats0 : Stats := {}

/-- A chunk object id used in concrete seek tables. -/
def chunkOID : ObjectID := .mk ("c") none none "" none

/-- One-entry seek table covering [0, 1). -/
def oneChunkTable : List indirectObjectEntry := [⟨0, 1, chunkOID⟩]

/-- A freshly opened indirect reader over oneChunkTable. -/
def rdr1 : objectReader :=
  { seekTable := oneChunkTable, currentPosition := 0, totalLength := 1,
    currentChunkIndex := 0, currentChunkData := none, currentChunkPosition := 0 }

/-- A chunk environment whose every open fails with a storage error. -/
def envErr : ChunkEnv := fun _ => .error (Err.storage ("unavailable"))

/-- A chunk environment that serves every chunk as the single byte 7. -/
def envOk : ChunkEnv := fun _ => .ok [7]

/-- Two-entry seek table covering [0, 2) and [2, 5). -/
def twoChunkTable : List indirectObjectEntry :=
  [⟨0, 2, chunkOID⟩, ⟨2, 3, .mk ("d") none none "" none⟩]

/-- A fresh indirect reader over twoChunkTable. -/
def rdr2 : objectReader :=
  { seekTable := twoChunkTable, currentPosition := 0, totalLength := 5,
    currentChunkIndex := 0, currentChunkData := none, currentChunkPosition := 0 }

/-- A chunk environment serving three bytes per chunk, enough for both
entries of twoChunkTable. -/
def envOk3 : ChunkEnv := fun _ => .ok [7, 8, 9]

/-- Write-path environment for the double-prefix counterexample: hashing
yields block name "h", packing is enabled and accepts everything. -/
def hewPackEnv : HEWEnv :=
  { computeObjectID := fun _ => .mk ("h") none none "" none,
    packEnabled := true,
    addToPack := fun _ name _ => (.mk name none none "" none, none),
    getSize := fun _ => .error Err.blockNotFound,
    encrypt := fun d _ _ => .ok d,
    putBlock := fun _ _ => none,
    maxPackedContentLength := 100 }

/-- Write-path environment with packing disabled and a block-size cache
that reports every block present with size 3. -/
def hewDedupeEnv : HEWEnv :=
  { computeObjectID := fun _ => .mk ("h") none none "" none,
    packEnabled := false,
    addToPack := fun _ name _ => (.mk name none none "" none, none),
    getSize := fun _ => .ok 3,
    encrypt := fun d _ _ => .ok d,
    putBlock := fun _ _ => none,
    maxPackedContentLength := 100 }

/-- Write-path environment whose block-size cache fails with a storage
error (not not-found). -/
def hewFailEnv : HEWEnv :=
  { computeObjectID := fun _ => .mk ("h") none none "" none,
    packEnabled := false,
    addToPack := fun _ name _ => (.mk name none none "" none, none),
    getSize := fun _ => .error (Err.storage ("cache down")),
    encrypt := fun d _ _ => .ok d,
    putBlock := fun _ _ => none,
    maxPackedContentLength := 100 }

/-- Read-path environment for the raw reader: no pack section, the blob
"x" holds one byte, decryption is the identity and hashing any payload
yields block name "x". -/
def rawEnvX : RawEnv :=
  { blockIDToPackSection := fun _ => .ok none,
    getBlock := fun _ _ _ => .ok [1],
    decrypt := fun p _ _ => .ok p,
    computeObjectID := fun _ => .mk ("x") none none "" none }

/-- Read-path environment whose recomputed id never matches any requested
block name. -/
def rawEnvBad : RawEnv :=
  { blockIDToPackSection := fun _ => .ok none,
    getBlock := fun _ _ _ => .ok [1],
    decrypt := fun p _ _ => .ok p,
    computeObjectID := fun _ => .mk ("zz") none none "" none }

/-- Open environment whose list chunks always parse to zero entries. -/
def openEnvEmptyList : OpenEnv :=
  { raw := rawEnvX, parseStream := fun _ => .ok [] }

/-- A raw object id pointing at blob "x". -/
def innerOIDx : ObjectID := .mk ("x") none none "" none

/-- An indirect object id whose referenced list chunk is the blob "x". -/
def indirectOIDx : ObjectID := .mk "" (some innerOIDx) none "" none

/-- Initialization environment for the C1 counterexample: key derivation
and crypto init succeed; the marshalled format descriptor is the unique
id, so distinct from the pre-existing blob contents. -/
def initEnv1 : InitEnv :=
  { getMasterKey := fun _ => .ok [1],
    randomBytes := fun n => List.replicate n 0,
    marshalMetadataFormat := fun f => f.securityOptions.UniqueID,
    marshalRepoConfig := fun _ => [2],
    initCrypto := fun _ _ => none,
    encryptMetadata := fun b => b }

/-- Options forcing a unique id of [5]. -/
def optUnique5 : NewRepositoryOptions := { UniqueID := some [5] }

/-- A storage state already holding a format blob (contents [9, 9]) under
metadata prefix "M". -/
def storeWithFormat : Storage := [("M" ++ formatBlockID, [9, 9])]

end Kopia

namespace Kopia

/-! Theorems. -/

/-- Claim C2 (code bug): on a one-chunk reader of total length 1, a seek to
offset 5 from the start is clamped to the total length 1, after which
findChunkIndexForOffset falls through the binary search (the offset is
at or past every entry's end offset) and executes the source's
panic("Unreachable code") — the code's own unreachability assertion is
violated, instead of returning the clamped position without error. -/
theorem seek_clamped_to_end_panics :
    Seek envOk rdr1 5 0 = GoResult.panicked ("Unreachable code") := rfl

/-- Claim C3 (code bug): on a one-chunk reader whose chunk open fails with
a storage error, Seek(0, start) returns position 0 with a nil error even
though openCurrentChunk failed on the same state: the error of the
unchecked `r.openCurrentChunk()` call inside Seek is swallowed. -/
theorem seek_swallows_open_error :
    Seek envErr rdr1 0 0 = .ok (0, none, rdr1) ∧
    openCurrentChunk envErr rdr1 = .ok (.error (Err.storage ("unavailable"))) :=
  ⟨rfl, rfl⟩

/-- Claim C4 (counterexample): a Read with a zero-length buffer on a fresh
reader whose position 0 is strictly before the total length 1 returns
io.EOF, contradicting the claim that EOF is returned only at or past the
total length. -/
theorem read_empty_buffer_eof_before_end :
    Read envOk rdr1 0 = .ok ([], some Err.eof, rdr1) ∧
    rdr1.currentPosition < rdr1.totalLength :=
  ⟨rfl, by decide⟩

/-- Claim C8 (code bug): with packing enabled and prefix "P", the chunk is
handed to the pack manager under block name "PPh" — the prefix is
prepended twice (once when the storage block name is formed, again in
the AddToPack argument) — rather than "Ph" with the prefix applied
exactly once; the pack manager's returned ObjectID is passed through. -/
theorem pack_path_double_pfx :
    hashEncryptAndWrite hewPackEnv {} ("g") [1] ("P") false =
      ((.mk ("PPh") none none "" none, none),
        { hashedBlocks := 1, hashedBytes := 1 },
        [Effect.addToPack ("g") ("PPh") [1]]) := rfl

/-- Claim C10 (confirmed): opening an indirect object whose referenced list
chunk parses successfully to zero IndirectEntry records panics with an
index-out-of-range (taking the last seek-table entry of an empty table)
instead of returning an error value. -/
theorem open_empty_indirect_list_panics :
    Open openEnvEmptyList 2 {} indirectOIDx = .panicked ("index out of range") ∧
    flattenListChunk openEnvEmptyList [1] = .ok [] :=
  ⟨rfl, rfl⟩

/-- The storage block name of an id after withStorageBlock is the name that
was set. -/
@[simp]
theorem ObjectID.StorageBlock_withStorageBlock (x : ObjectID) (s : String) :
    (x.withStorageBlock s).StorageBlock = s := by
  cases x
  rfl

/-- The trace of the encrypt-and-store tail always records the encryption
of the chunk. -/
theorem encryptOp_mem_encryptAndPut (env : HEWEnv) (stats : Stats) (data : List Nat)
    (objectID : ObjectID) (effects : List Effect) :
    Effect.encryptOp data objectID ∈ (encryptAndPut env stats data objectID effects).2.2 := by
  rcases h1 : env.encrypt data objectID 0 with e | cipher
  · simp [encryptAndPut, h1]
  · rcases h2 : env.putBlock objectID.StorageBlock cipher with _ | e <;>
      simp [encryptAndPut, h1, h2]

/-- hashEncryptAndWrite, pack branch not taken, dedupe hit: the cache
reports exactly len(data) bytes. -/
theorem hew_dedupe (env : HEWEnv) (stats : Stats) (packGroup : String) (data : List Nat)
    (pfx : String) (disablePacking : Bool)
    (hpack : ¬ packTaken env data disablePacking)
    (sb : String) (i : Option ObjectID) (bc : Option (List Nat)) (tc : String)
    (sec : Option (Int × Int × ObjectID))
    (hoid : env.computeObjectID data = ObjectID.mk sb i bc tc sec)
    (hgs : env.getSize (pfx ++ sb) = .ok (data.length : Int)) :
    hashEncryptAndWrite env stats packGroup data pfx disablePacking =
      ((ObjectID.mk (pfx ++ sb) i bc tc sec, none),
        { stats with hashedBlocks := stats.hashedBlocks + 1,
                     hashedBytes := stats.hashedBytes + data.length,
                     checkedBlocks := stats.checkedBlocks + 1,
                     presentBlocks := stats.presentBlocks + 1 },
        [Effect.getSize (pfx ++ sb)]) := by
  simp [hashEncryptAndWrite, hoid, ObjectID.withStorageBlock, ObjectID.StorageBlock,
    if_neg hpack, hgs]

/-- hashEncryptAndWrite, pack branch not taken, cache size differs from
len(data): falls through to encrypt-and-store. -/
theorem hew_sizeMismatch (env : HEWEnv) (stats : Stats) (packGroup : String) (data : List Nat)
    (pfx : String) (disablePacking : Bool)
    (hpack : ¬ packTaken env data disablePacking)
    (sb : String) (i : Option ObjectID) (bc : Option (List Nat)) (tc : String)
    (sec : Option (Int × Int × ObjectID))
    (hoid : env.computeObjectID data = ObjectID.mk sb i bc tc sec)
    (bs : Int) (hgs : env.getSize (pfx ++ sb) = .ok bs) (hlen : bs ≠ (data.length : Int)) :
    hashEncryptAndWrite env stats packGroup data pfx disablePacking =
      encryptAndPut env
        { stats with hashedBlocks := stats.hashedBlocks + 1,
                     hashedBytes := stats.hashedBytes + data.length,
                     checkedBlocks := stats.checkedBlocks + 1 }
        data (ObjectID.mk (pfx ++ sb) i bc tc sec) [Effect.getSize (pfx ++ sb)] := by
  simp [hashEncryptAndWrite, hoid, ObjectID.withStorageBlock, ObjectID.StorageBlock,
    if_neg hpack, hgs, hlen]

/-- hashEncryptAndWrite, pack branch not taken, cache reports not-found:
falls through to encrypt-and-store. -/
theorem hew_notFound (env : HEWEnv) (stats : Stats) (packGroup : String) (data : List Nat)
    (pfx : String) (disablePacking : Bool)
    (hpack : ¬ packTaken env data disablePacking)
    (sb : String) (i : Option ObjectID) (bc : Option (List Nat)) (tc : String)
    (sec : Option (Int × Int × ObjectID))
    (hoid : env.computeObjectID data = ObjectID.mk sb i bc tc sec)
    (hgs : env.getSize (pfx ++ sb) = .error Err.blockNotFound) :
    hashEncryptAndWrite env stats packGroup data pfx disablePacking =
      encryptAndPut env
        { stats with hashedBlocks := stats.hashedBlocks + 1,
                     hashedBytes := stats.hashedBytes + data.length,
                     checkedBlocks := stats.checkedBlocks + 1 }
        data (ObjectID.mk (pfx ++ sb) i bc tc sec) [Effect.getSize (pfx ++ sb)] := by
  simp [hashEncryptAndWrite, hoid, ObjectID.withStorageBlock, ObjectID.StorageBlock,
    if_neg hpack, hgs]

/-- hashEncryptAndWrite, pack branch not taken, cache fails with an error
other than not-found: aborts with the null id and that error. -/
theorem hew_sizeErr (env : HEWEnv) (stats : Stats) (packGroup : String) (data : List Nat)
    (pfx : String) (disablePacking : Bool)
    (hpack : ¬ packTaken env data disablePacking)
    (sb : String) (i : Option ObjectID) (bc : Option (List Nat)) (tc : String)
    (sec : Option (Int × Int × ObjectID))
    (hoid : env.computeObjectID data = ObjectID.mk sb i bc tc sec)
    (e : Err) (hgs : env.getSize (pfx ++ sb) = .error e) (hne : e ≠ Err.blockNotFound) :
    hashEncryptAndWrite env stats packGroup data pfx disablePacking =
      ((NullObjectID, some e),
        { stats with hashedBlocks := stats.hashedBlocks + 1,
                     hashedBytes := stats.hashedBytes + data.length,
                     checkedBlocks := stats.checkedBlocks + 1 },
        [Effect.getSize (pfx ++ sb)]) := by
  simp [hashEncryptAndWrite, hoid, ObjectID.withStorageBlock, ObjectID.StorageBlock,
    if_neg hpack, hgs, hne]

/-- Nothing is encrypted or uploaded in a trace consisting of the size
query alone. -/
theorem noStorePerformed_getSize (s : String) :
    noStorePerformed [Effect.getSize s] := by
  constructor <;> intro a b hmem <;> simp at hmem

/-- Claim C6 (confirmed): when the pack branch is not taken, the dedupe
outcome — the computed (prefixed) ObjectID returned with no error, the
present-blocks counter incremented, and neither an encryption nor an
upload performed — happens exactly when the block-size cache reports the
block present with size equal to len(data), which (the formatter's
cipher being length-preserving per spec 4.1) is the expected ciphertext
size. -/
theorem dedupe_iff_size_match (env : HEWEnv) (stats : Stats) (packGroup : String)
    (data : List Nat) (pfx : String) (disablePacking : Bool)
    (hpack : ¬ packTaken env data disablePacking) :
    ((hashEncryptAndWrite env stats packGroup data pfx disablePacking).1 =
        (hewOID env data pfx, none) ∧
      (hashEncryptAndWrite env stats packGroup data pfx disablePacking).2.1.presentBlocks =
        stats.presentBlocks + 1 ∧
      noStorePerformed (hashEncryptAndWrite env stats packGroup data pfx disablePacking).2.2)
    ↔ env.getSize (hewOID env data pfx).StorageBlock = .ok (data.length : Int) := by
  rcases hoid : env.computeObjectID data with ⟨sb, i, bc, tc, sec⟩
  have hsb : hewOID env data pfx = ObjectID.mk (pfx ++ sb) i bc tc sec := by
    simp [hewOID, hoid, ObjectID.withStorageBlock, ObjectID.StorageBlock]
  rw [hsb]
  simp only [ObjectID.StorageBlock]
  rcases hgs : env.getSize (pfx ++ sb) with e | bs
  · by_cases hbnf : e = Err.blockNotFound
    · subst hbnf
      rw [hew_notFound env stats packGroup data pfx disablePacking hpack sb i bc tc sec hoid hgs]
      constructor
      · rintro ⟨-, -, -, henc⟩
        exact absurd (encryptOp_mem_encryptAndPut env _ data _ _)
          (henc data (ObjectID.mk (pfx ++ sb) i bc tc sec))
      · intro h
        exact absurd h (by simp)
    · rw [hew_sizeErr env stats packGroup data pfx disablePacking hpack sb i bc tc sec hoid
        e hgs hbnf]
      constructor
      · rintro ⟨h1, -⟩
        exact absurd (congrArg Prod.snd h1) (by simp)
      · intro h
        exact absurd h (by simp)
  · by_cases hlen : bs = (data.length : Int)
    · subst hlen
      rw [hew_dedupe env stats packGroup data pfx disablePacking hpack sb i bc tc sec hoid hgs]
      constructor
      · intro _
        rfl
      · intro _
        exact ⟨rfl, rfl, noStorePerformed_getSize _⟩
    · rw [hew_sizeMismatch env stats packGroup data pfx disablePacking hpack sb i bc tc sec hoid
        bs hgs hlen]
      constructor
      · rintro ⟨-, -, -, henc⟩
        exact absurd (encryptOp_mem_encryptAndPut env _ data _ _)
          (henc data (ObjectID.mk (pfx ++ sb) i bc tc sec))
      · intro h
        exact absurd (Except.ok.inj h) hlen

/-- Claim C6 witness: with packing disabled and a cache reporting size 3
for every block, writing the 3-byte chunk [1,2,3] is a dedupe hit in
exactly the sense of the theorem. -/
theorem dedupe_iff_size_match_witness :
    ((hashEncryptAndWrite hewDedupeEnv stats0 ("g") [1, 2, 3] ("P") false).1 =
        (hewOID hewDedupeEnv [1, 2, 3] ("P"), none) ∧
      (hashEncryptAndWrite hewDedupeEnv stats0 ("g") [1, 2, 3] ("P") false).2.1.presentBlocks =
        stats0.presentBlocks + 1 ∧
      noStorePerformed (hashEncryptAndWrite hewDedupeEnv stats0 ("g") [1, 2, 3] ("P") false).2.2)
    ↔ hewDedupeEnv.getSize (hewOID hewDedupeEnv [1, 2, 3] ("P")).StorageBlock =
        .ok (([1, 2, 3] : List Nat).length : Int) :=
  dedupe_iff_size_match hewDedupeEnv stats0 ("g") [1, 2, 3] ("P") false (by decide)

/-- Claim C7 (confirmed): when the pack branch is not taken and the
block-size check fails with an error other than not-found, the call
returns the null ObjectID with that error, and neither encryption nor a
storage put happens for the chunk. -/
theorem size_check_error_aborts (env : HEWEnv) (stats : Stats) (packGroup : String)
    (data : List Nat) (pfx : String) (disablePacking : Bool) (e : Err)
    (hpack : ¬ packTaken env data disablePacking)
    (hsize : env.getSize (hewOID env data pfx).StorageBlock = .error e)
    (hne : e ≠ Err.blockNotFound) :
    (hashEncryptAndWrite env stats packGroup data pfx disablePacking).1 =
      (NullObjectID, some e) ∧
    noStorePerformed (hashEncryptAndWrite env stats packGroup data pfx disablePacking).2.2 := by
  rcases hoid : env.computeObjectID data with ⟨sb, i, bc, tc, sec⟩
  have hsb : hewOID env data pfx = ObjectID.mk (pfx ++ sb) i bc tc sec := by
    simp [hewOID, hoid, ObjectID.withStorageBlock, ObjectID.StorageBlock]
  rw [hsb] at hsize
  simp only [ObjectID.StorageBlock] at hsize
  rw [hew_sizeErr env stats packGroup data pfx disablePacking hpack sb i bc tc sec hoid
    e hsize hne]
  exact ⟨rfl, noStorePerformed_getSize _⟩

/-- Claim C7 witness: with a cache that fails with a storage error, the
theorem applies to the concrete chunk [1]. -/
theorem size_check_error_aborts_witness :
    (hashEncryptAndWrite hewFailEnv stats0 ("g") [1] ("P") false).1 =
      (NullObjectID, some (Err.storage ("cache down"))) ∧
    noStorePerformed (hashEncryptAndWrite hewFailEnv stats0 ("g") [1] ("P") false).2.2 :=
  size_check_error_aborts hewFailEnv stats0 ("g") [1] ("P") false (Err.storage ("cache down"))
    (by decide) rfl (by decide)

/-- Claim C9 (confirmed): for a non-packed raw read whose fetch and
decryption succeed, newRawReader verifies that the ObjectID recomputed
from the plaintext matches (is a suffix of, accounting for the prefix
byte) the requested block name: on mismatch the read fails with the
integrity-mismatch error and increments the invalid-blocks counter; on
match the valid-blocks counter is incremented and the plaintext is
returned as the reader's data. -/
theorem raw_read_checksum_verification (env : RawEnv) (stats : Stats) (oid : ObjectID)
    (payload plain : List Nat)
    (hpack : env.blockIDToPackSection oid.StorageBlock = .ok none)
    (hget : env.getBlock oid.StorageBlock 0 (-1) = .ok payload)
    (hdec : env.decrypt payload oid 0 = .ok plain) :
    (((env.computeObjectID plain).StorageBlock.data.isSuffixOf oid.StorageBlock.data) = false →
      newRawReader env stats oid =
        (.error (Err.integrityMismatch oid.StorageBlock (env.computeObjectID plain).StorageBlock),
          { stats with readBlocks := stats.readBlocks + 1,
                       readBytes := stats.readBytes + payload.length,
                       decryptedBytes := stats.decryptedBytes + plain.length,
                       invalidBlocks := stats.invalidBlocks + 1 })) ∧
    (((env.computeObjectID plain).StorageBlock.data.isSuffixOf oid.StorageBlock.data) = true →
      newRawReader env stats oid =
        (.ok (Rdr.withData plain 0),
          { stats with readBlocks := stats.readBlocks + 1,
                       readBytes := stats.readBytes + payload.length,
                       decryptedBytes := stats.decryptedBytes + plain.length,
                       validBlocks := stats.validBlocks + 1 })) := by
  constructor <;> intro h <;>
    simp only [newRawReader, hpack, hget, Except.map, hdec, verifyChecksum, h] <;>
    rfl

/-- Claim C9 witness: reading the raw object "x" through an environment
whose recomputed id is "x" (a suffix match) returns the plaintext and
counts a valid block, by the theorem at that input. -/
theorem raw_read_checksum_verification_witness :
    (((rawEnvX.computeObjectID [1]).StorageBlock.data.isSuffixOf
        innerOIDx.StorageBlock.data) = false →
      newRawReader rawEnvX stats0 innerOIDx =
        (.error (Err.integrityMismatch innerOIDx.StorageBlock
            (rawEnvX.computeObjectID [1]).StorageBlock),
          { stats0 with readBlocks := stats0.readBlocks + 1,
                        readBytes := stats0.readBytes + 1,
                        decryptedBytes := stats0.decryptedBytes + 1,
                        invalidBlocks := stats0.invalidBlocks + 1 })) ∧
    (((rawEnvX.computeObjectID [1]).StorageBlock.data.isSuffixOf
        innerOIDx.StorageBlock.data) = true →
      newRawReader rawEnvX stats0 innerOIDx =
        (.ok (Rdr.withData [1] 0),
          { stats0 with readBlocks := stats0.readBlocks + 1,
                        readBytes := stats0.readBytes + 1,
                        decryptedBytes := stats0.decryptedBytes + 1,
                        validBlocks := stats0.validBlocks + 1 })) :=
  raw_read_checksum_verification rawEnvX stats0 innerOIDx [1] [1] rfl rfl rfl

/-- Claim C1 (counterexample): initializing over a storage state that
already holds the format blob (contents [9,9]) succeeds with no error —
in particular no AlreadyInitialized failure — and replaces the format
blob with the newly marshalled descriptor [5]. -/
theorem initRepo_overwrites_existing_format_blob :
    (initRepository initEnv1 ("M") storeWithFormat (some optUnique5)).1 = none ∧
    getBlob (initRepository initEnv1 ("M") storeWithFormat (some optUnique5)).2
      ("M" ++ formatBlockID) = some [5] ∧
    getBlob storeWithFormat ("M" ++ formatBlockID) = some [9, 9] :=
  ⟨rfl, rfl, rfl⟩

/-- Putting a blob makes it readable under its name. -/
theorem getBlob_putBlob_self (st : Storage) (n : String) (d : List Nat) :
    getBlob (putBlob st n d) n = some d := by
  induction st with
  | nil => simp [putBlob, getBlob]
  | cons hd tl ih =>
    obtain ⟨m, dd⟩ := hd
    by_cases h : m = n
    · subst h
      simp [putBlob, getBlob]
    · simp [putBlob, getBlob, h, ih]

/-- Putting a blob does not disturb other names. -/
theorem getBlob_putBlob_ne (st : Storage) (n m : String) (d : List Nat) (h : n ≠ m) :
    getBlob (putBlob st m d) n = getBlob st n := by
  induction st with
  | nil => simp [putBlob, getBlob, Ne.symm h]
  | cons hd tl ih =>
    obtain ⟨p, dd⟩ := hd
    by_cases hp : p = m
    · subst hp
      have hpn : ¬ p = n := fun hh => h hh.symm
      simp [putBlob, getBlob, hpn]
    · simp [putBlob, getBlob, hp, ih]

/-- The format blob and the repository configuration blob have distinct
names under any metadata prefix. -/
theorem formatBlockID_ne_repositoryConfigBlockID (pfx : String) :
    pfx ++ formatBlockID ≠ pfx ++ repositoryConfigBlockID := by
  intro h
  have h2 := congrArg String.length h
  rw [String.length_append, String.length_append] at h2
  have hf : formatBlockID.length = 6 := rfl
  have hr : repositoryConfigBlockID.length = 10 := rfl
  omega

/-- Claim C1 (amended, proved): on any storage state already holding the
format blob, whenever key derivation and crypto initialization succeed,
Initialize returns success (there is no AlreadyInitialized error) and
the format blob is overwritten with the newly marshalled metadata
format descriptor. -/
theorem initRepo_no_existence_check (env : InitEnv) (pfx : String) (st : Storage)
    (opt : NewRepositoryOptions) (old masterKey : List Nat)
    (hexists : getBlob st (pfx ++ formatBlockID) = some old)
    (hkey : env.getMasterKey
      (metadataFormatFromOptions env.randomBytes opt).securityOptions = .ok masterKey)
    (hcrypto : env.initCrypto (metadataFormatFromOptions env.randomBytes opt) masterKey
      = none) :
    (initRepository env pfx st (some opt)).1 = none ∧
    getBlob (initRepository env pfx st (some opt)).2 (pfx ++ formatBlockID) =
      some (env.marshalMetadataFormat (metadataFormatFromOptions env.randomBytes opt)) := by
  simp only [initRepository, Option.getD_some, hkey, hcrypto]
  refine ⟨by trivial, ?_⟩
  rw [getBlob_putBlob_ne _ _ _ _ (formatBlockID_ne_repositoryConfigBlockID pfx),
    getBlob_putBlob_self]

/-- Claim C1 witness: the amended theorem applied to the concrete
populated store of the counterexample. -/
theorem initRepo_no_existence_check_witness :
    (initRepository initEnv1 ("M") storeWithFormat (some optUnique5)).1 = none ∧
    getBlob (initRepository initEnv1 ("M") storeWithFormat (some optUnique5)).2
      ("M" ++ formatBlockID) =
      some (initEnv1.marshalMetadataFormat
        (metadataFormatFromOptions initEnv1.randomBytes optUnique5)) :=
  initRepo_no_existence_check initEnv1 ("M") storeWithFormat optUnique5 [9, 9] [1]
    rfl rfl rfl

/-- `ent` agrees with list indexing in range. -/
theorem ent_eq_get (t : List indirectObjectEntry) (k : Nat) (h : k < t.length) :
    ent t k = t[k] := by
  simp [ent, List.getElem?_eq_getElem h]

/-- In-range optional indexing yields `ent`. -/
theorem getElem?_eq_some_ent (t : List indirectObjectEntry) (k : Nat) (h : k < t.length) :
    t[k]? = some (ent t k) := by
  rw [ent_eq_get t k h, List.getElem?_eq_getElem h]

/-- In-range `ent` values are members of the table. -/
theorem ent_mem (t : List indirectObjectEntry) (k : Nat) (h : k < t.length) :
    ent t k ∈ t := by
  rw [ent_eq_get t k h]
  exact List.getElem_mem h

/-- Start offsets are monotone over the seek table. -/
theorem tableInv_start_mono (t : List indirectObjectEntry) (hinv : tableInv t)
    {j k : Nat} (hjk : j ≤ k) (hk : k < t.length) :
    (ent t j).Start ≤ (ent t k).Start := by
  rcases Nat.eq_or_lt_of_le hjk with rfl | hlt
  · exact le_refl _
  · exact le_of_lt (hinv.2.2.2.1 j (lt_trans hlt hk) k hk hlt)

/-- Every entry ends at or before the logical object length. -/
theorem tableInv_end_le (t : List indirectObjectEntry) (hinv : tableInv t)
    {i : Nat} (hi : i < t.length) :
    (ent t i).endOffset ≤ tableLen t := by
  unfold tableLen
  by_cases hlast : i = t.length - 1
  · subst hlast
    exact le_refl _
  · have hi1 : i + 1 < t.length := by omega
    have hc := hinv.2.2.1 i (by omega) hi1
    have hmono := tableInv_start_mono t hinv (j := i + 1) (k := t.length - 1) (by omega)
      (by omega)
    have hnn := hinv.2.2.2.2 (t.length - 1) (by omega)
    unfold indirectObjectEntry.endOffset
    omega

/-- For every offset in [0, tableLen), some entry's interval contains it. -/
theorem tableInv_exists_containing (t : List indirectObjectEntry) (hinv : tableInv t)
    (offset : Int) (h0 : 0 ≤ offset) (hL : offset < tableLen t) :
    ∃ i, i < t.length ∧ (ent t i).Start ≤ offset ∧ offset < (ent t i).endOffset := by
  have hlen : 0 < t.length := hinv.1
  have hP0 : (ent t 0).Start ≤ offset := by
    rw [hinv.2.1]
    exact h0
  have hPi : (ent t (Nat.findGreatest (fun k => (ent t k).Start ≤ offset)
      (t.length - 1))).Start ≤ offset :=
    Nat.findGreatest_spec (P := fun k => (ent t k).Start ≤ offset)
      (Nat.zero_le (t.length - 1)) hP0
  have hile : Nat.findGreatest (fun k => (ent t k).Start ≤ offset) (t.length - 1) ≤
      t.length - 1 :=
    Nat.findGreatest_le (P := fun k => (ent t k).Start ≤ offset) (t.length - 1)
  refine ⟨Nat.findGreatest (fun k => (ent t k).Start ≤ offset) (t.length - 1),
    by omega, hPi, ?_⟩
  by_cases hlast : Nat.findGreatest (fun k => (ent t k).Start ≤ offset) (t.length - 1) =
      t.length - 1
  · rw [hlast]
    unfold tableLen at hL
    exact hL
  · have hi1 : Nat.findGreatest (fun k => (ent t k).Start ≤ offset) (t.length - 1) + 1 ≤
        t.length - 1 := by omega
    have hnP : ¬ (ent t (Nat.findGreatest (fun k => (ent t k).Start ≤ offset)
        (t.length - 1) + 1)).Start ≤ offset :=
      Nat.findGreatest_is_greatest (P := fun k => (ent t k).Start ≤ offset)
        (n := t.length - 1) (by omega) hi1
    have hc := hinv.2.2.1 (Nat.findGreatest (fun k => (ent t k).Start ≤ offset)
      (t.length - 1)) (by omega) (by omega)
    unfold indirectObjectEntry.endOffset
    omega

/-- The interval containing an offset is unique. -/
theorem tableInv_containing_unique (t : List indirectObjectEntry) (hinv : tableInv t)
    (offset : Int) {i j : Nat} (hi : i < t.length) (hj : j < t.length)
    (hi1 : (ent t i).Start ≤ offset) (hi2 : offset < (ent t i).endOffset)
    (hj1 : (ent t j).Start ≤ offset) (hj2 : offset < (ent t j).endOffset) : i = j := by
  have aux : ∀ a b : Nat, a < t.length → b < t.length → a < b →
      (ent t a).Start ≤ offset → offset < (ent t a).endOffset →
      (ent t b).Start ≤ offset → False := by
    intro a b ha hb hab ha1 ha2 hb1
    have hc := hinv.2.2.1 a (by omega) (by omega)
    have hmono := tableInv_start_mono t hinv (j := a + 1) (k := b) (by omega) hb
    unfold indirectObjectEntry.endOffset at ha2
    omega
  rcases Nat.lt_trichotomy i j with hlt | heq | hgt
  · exact absurd (aux i j hi hj hlt hi1 hi2 hj1) (by simp)
  · exact heq
  · exact absurd (aux j i hj hi hgt hj1 hj2 hi1) (by simp)

/-- The binary-search loop returns a containing index whenever one lies in
the searched range and the fuel exceeds the range width. -/
theorem findChunkLoop_ok (t : List indirectObjectEntry) (offset : Int) (hinv : tableInv t) :
    ∀ (fuel : Nat) (left right : Int), 0 ≤ left → right < (t.length : Int) →
    (∃ k : Nat, left ≤ (k : Int) ∧ (k : Int) ≤ right ∧ (ent t k).Start ≤ offset ∧
      offset < (ent t k).endOffset) →
    (right + 1 - left).toNat < fuel →
    ∃ i : Nat, findChunkLoop t offset fuel left right = .ok i ∧ i < t.length ∧
      (ent t i).Start ≤ offset ∧ offset < (ent t i).endOffset := by
  intro fuel
  induction fuel with
  | zero =>
    intro left right _ _ hex hf
    omega
  | succ fuel ih =>
    intro left right hl hr hex hf
    obtain ⟨k, hkl, hkr, hks, hke⟩ := hex
    have hlr : left ≤ right := le_trans hkl hkr
    have hml : left ≤ (left + right) / 2 := by omega
    have hmr : (left + right) / 2 ≤ right := by omega
    have hmnat : ((left + right) / 2).toNat < t.length := by omega
    have hback : ((((left + right) / 2).toNat : Int)) = (left + right) / 2 := by omega
    simp only [findChunkLoop, if_pos hlr, getElem?_eq_some_ent t _ hmnat]
    by_cases h1 : offset < (ent t ((left + right) / 2).toNat).Start
    · rw [if_pos h1]
      refine ih left ((left + right) / 2 - 1) hl (by omega) ⟨k, hkl, ?_, hks, hke⟩ (by omega)
      by_contra hcon
      push_neg at hcon
      have hmk : ((left + right) / 2).toNat ≤ k := by omega
      have := tableInv_start_mono t hinv hmk (by omega)
      have := lt_of_le_of_lt (le_trans this hks) h1
      exact absurd this (lt_irrefl _)
    · rw [if_neg h1]
      push_neg at h1
      by_cases h2 : (ent t ((left + right) / 2).toNat).endOffset ≤ offset
      · rw [if_pos h2]
        refine ih ((left + right) / 2 + 1) right (by omega) hr ⟨k, ?_, hkr, hks, hke⟩
          (by omega)
        by_contra hcon
        push_neg at hcon
        have hkm : k ≤ ((left + right) / 2).toNat := by omega
        rcases Nat.eq_or_lt_of_le hkm with heq | hklt
        · rw [heq] at hke
          exact absurd (lt_of_lt_of_le hke h2) (lt_irrefl _)
        · have hc := hinv.2.2.1 k (by omega) (by omega)
          have hmono := tableInv_start_mono t hinv (j := k + 1)
            (k := ((left + right) / 2).toNat) (by omega) (by omega)
          unfold indirectObjectEntry.endOffset at hke
          omega
      · rw [if_neg h2]
        push_neg at h2
        exact ⟨((left + right) / 2).toNat, rfl, hmnat, h1, h2⟩

/-- Claim C5 (confirmed): under the spec's seek-table invariants and for
0 <= offset < total length, findChunkIndexForOffset returns the unique
index whose [Start, Start+Length) interval contains the offset. -/
theorem findChunkIndex_correct (t : List indirectObjectEntry) (offset : Int)
    (hinv : tableInv t) (h0 : 0 ≤ offset) (hL : offset < tableLen t) :
    ∃ i : Nat, findChunkIndexForOffset t offset = .ok i ∧ i < t.length ∧
      (ent t i).Start ≤ offset ∧ offset < (ent t i).Start + (ent t i).Length ∧
      ∀ j : Nat, j < t.length → (ent t j).Start ≤ offset →
        offset < (ent t j).Start + (ent t j).Length → j = i := by
  obtain ⟨k, hk, hks, hke⟩ := tableInv_exists_containing t hinv offset h0 hL
  have hlen : 0 < t.length := hinv.1
  obtain ⟨i, hloop, hi, his, hie⟩ := findChunkLoop_ok t offset hinv (t.length + 1) 0
    ((t.length : Int) - 1) (by omega) (by omega) ⟨k, by omega, by omega, hks, hke⟩
    (by omega)
  refine ⟨i, ?_, hi, his, hie, ?_⟩
  · unfold findChunkIndexForOffset
    exact hloop
  · intro j hj hjs hje
    exact tableInv_containing_unique t hinv offset hj hi hjs hje his hie

/-- Unfolded form of the reader invariant when a chunk is loaded. -/
theorem wfReader_some {r : objectReader} {d : List Nat} (hwf : wfReader r)
    (hd : r.currentChunkData = some d) :
    r.currentChunkIndex < r.seekTable.length ∧
    (d.length : Int) = (ent r.seekTable r.currentChunkIndex).Length ∧
    0 ≤ r.currentChunkPosition ∧ r.currentChunkPosition ≤ (d.length : Int) ∧
    r.currentPosition =
      (ent r.seekTable r.currentChunkIndex).Start + r.currentChunkPosition := by
  obtain ⟨-, -, -, h4⟩ := hwf
  rw [hd] at h4
  exact h4

/-- Unfolded form of the reader invariant when no chunk is loaded. -/
theorem wfReader_none {r : objectReader} (hwf : wfReader r)
    (hd : r.currentChunkData = none) :
    (r.currentChunkIndex < r.seekTable.length ∧
      r.currentPosition = (ent r.seekTable r.currentChunkIndex).Start) ∨
    (r.currentChunkIndex = r.seekTable.length ∧ r.currentPosition = r.totalLength) := by
  obtain ⟨-, -, -, h4⟩ := hwf
  rw [hd] at h4
  exact h4

/-- The reader measure when a chunk is loaded. -/
theorem readMeasure_some (r : objectReader) (d : List Nat)
    (hd : r.currentChunkData = some d) :
    readMeasure r =
      2 * (r.seekTable.length + 2 - min r.currentChunkIndex (r.seekTable.length + 2)) + 1 := by
  unfold readMeasure
  rw [hd]

/-- The reader measure when no chunk is loaded. -/
theorem readMeasure_none (r : objectReader) (hd : r.currentChunkData = none) :
    readMeasure r =
      if r.currentChunkIndex < r.seekTable.length then
        2 * (r.seekTable.length + 2 - r.currentChunkIndex) + 2
      else 0 := by
  unfold readMeasure
  rw [hd]

/-- Go's conditional assignment `if a < b { a } else { b }` is the minimum. -/
theorem if_lt_eq_min (a b : Int) : (if a < b then a else b) = min a b := by
  split_ifs with h <;> omega

/-- Claim C5 witness: on the two-chunk table covering [0,2) and [2,5),
offset 3 is located in the unique containing entry, by the theorem. -/
theorem findChunkIndex_correct_witness :
    ∃ i : Nat, findChunkIndexForOffset twoChunkTable 3 = .ok i ∧ i < twoChunkTable.length ∧
      (ent twoChunkTable i).Start ≤ 3 ∧
      3 < (ent twoChunkTable i).Start + (ent twoChunkTable i).Length ∧
      ∀ j : Nat, j < twoChunkTable.length → (ent twoChunkTable j).Start ≤ 3 →
        3 < (ent twoChunkTable j).Start + (ent twoChunkTable j).Length → j = i :=
  findChunkIndex_correct twoChunkTable 3 (by decide) (by decide) (by decide)

/-- The Read copy loop, on a well-formed reader whose chunks are all
fetchable and with fuel above the loop measure, never panics and never
hits an open error; it produces an empty byte list exactly when the
buffer is empty or the cursor is at or past the total length. -/
theorem readLoop_ok (env : ChunkEnv) :
    ∀ (fuel : Nat) (r : objectReader) (remaining : Nat),
      wfReader r → envGood env r.seekTable →
      remaining + readMeasure r < fuel →
      ∃ acc r', readLoop env fuel r remaining = .ok (.bytes acc r') ∧
        (acc = [] ↔ remaining = 0 ∨ r.totalLength ≤ r.currentPosition) := by
  intro fuel
  induction fuel with
  | zero =>
    intro r remaining _ _ hf
    omega
  | succ fuel ih =>
    intro r remaining hwf henv hf
    by_cases hrem : remaining = 0
    · refine ⟨[], r, ?_, by simp [hrem]⟩
      simp [readLoop, hrem]
    · rcases hd : r.currentChunkData with _ | d
      · -- no chunk loaded
        have hsplit := wfReader_none hwf hd
        obtain ⟨hinv, htot, hidx, -⟩ := hwf
        rcases hsplit with ⟨hlt, hpos⟩ | ⟨hend, hpos⟩
        · -- open the current chunk and continue
          obtain ⟨b, hb, hblen⟩ :=
            henv (ent r.seekTable r.currentChunkIndex) (ent_mem _ _ hlt)
          have hLnn : 0 ≤ (ent r.seekTable r.currentChunkIndex).Length :=
            hinv.2.2.2.2 _ hlt
          have hopen : openCurrentChunk env r = .ok (.ok { r with
              currentChunkData :=
                some (b.take (ent r.seekTable r.currentChunkIndex).Length.toNat),
              currentChunkPosition := 0 }) := by
            unfold openCurrentChunk
            rw [getElem?_eq_some_ent _ _ hlt]
            dsimp only
            rw [if_neg (by omega), hb]
            dsimp only
            rw [if_neg (by omega), if_neg (by omega)]
          have hwf2 : wfReader { r with
              currentChunkData :=
                some (b.take (ent r.seekTable r.currentChunkIndex).Length.toNat),
              currentChunkPosition := 0 } := by
            refine ⟨hinv, htot, ?_, ?_⟩
            · dsimp only
              omega
            · dsimp only
              refine ⟨hlt, ?_, by omega, ?_, ?_⟩
              · rw [List.length_take]
                omega
              · rw [List.length_take]
                omega
              · rw [hpos]
                omega
          obtain ⟨acc, r', heq, hiff⟩ := ih { r with
              currentChunkData :=
                some (b.take (ent r.seekTable r.currentChunkIndex).Length.toNat),
              currentChunkPosition := 0 } remaining hwf2 henv (by
            rw [readMeasure_some _ _ rfl]
            rw [readMeasure_none r hd, if_pos hlt] at hf
            dsimp only
            omega)
          refine ⟨acc, r', ?_, ?_⟩
          · simp only [readLoop]
            rw [if_neg hrem, hd]
            dsimp only
            rw [if_pos hlt, hopen]
            exact heq
          · exact hiff
        · -- past the last chunk: break with no bytes
          refine ⟨[], r, ?_, ?_⟩
          · simp only [readLoop]
            rw [if_neg hrem, hd]
            dsimp only
            rw [if_neg (by omega)]
          · exact ⟨fun _ => Or.inr (le_of_eq hpos.symm), fun _ => rfl⟩
      · -- a chunk is loaded
        obtain ⟨hlt, hdlen, hcp0, hcpd, hpos⟩ := wfReader_some hwf hd
        obtain ⟨hinv, htot, hidx, -⟩ := hwf
        by_cases htc : (d.length : Int) - r.currentChunkPosition = 0
        · -- chunk exhausted: close it and advance
          have hwf2 : wfReader
              { r with currentChunkData := none, currentChunkIndex := r.currentChunkIndex + 1 } := by
            refine ⟨hinv, htot, ?_, ?_⟩
            · dsimp only
              omega
            · dsimp only
              by_cases hlast : r.currentChunkIndex + 1 < r.seekTable.length
              · left
                refine ⟨hlast, ?_⟩
                have hc := hinv.2.2.1 r.currentChunkIndex (by omega) hlast
                omega
              · right
                refine ⟨by omega, ?_⟩
                have hidx1 : r.currentChunkIndex = r.seekTable.length - 1 := by omega
                rw [htot]
                unfold tableLen indirectObjectEntry.endOffset
                rw [← hidx1]
                omega
          obtain ⟨acc, r', heq, hiff⟩ := ih
            { r with currentChunkData := none, currentChunkIndex := r.currentChunkIndex + 1 }
            remaining hwf2 henv (by
            rw [readMeasure_some r d hd] at hf
            rw [readMeasure_none _ rfl]
            dsimp only
            split_ifs <;> omega)
          refine ⟨acc, r', ?_, ?_⟩
          · simp only [readLoop]
            rw [if_neg hrem, hd]
            dsimp only
            rw [if_pos htc]
            exact heq
          · exact hiff
        · -- copy from the current chunk
          have htc0 : 0 < (d.length : Int) - r.currentChunkPosition := by omega
          have hposL : r.currentPosition < r.totalLength := by
            have hendle := tableInv_end_le r.seekTable hinv hlt
            unfold indirectObjectEntry.endOffset at hendle
            omega
          have hwf2 : wfReader { r with
              currentChunkData := some d,
              currentChunkPosition := r.currentChunkPosition +
                min (remaining : Int) ((d.length : Int) - r.currentChunkPosition),
              currentPosition := r.currentPosition +
                min (remaining : Int) ((d.length : Int) - r.currentChunkPosition) } := by
            refine ⟨hinv, htot, hidx, ?_⟩
            dsimp only
            refine ⟨hlt, hdlen, by omega, by omega, by omega⟩
          obtain ⟨acc, r', heq, hiff⟩ := ih { r with
              currentChunkData := some d,
              currentChunkPosition := r.currentChunkPosition +
                min (remaining : Int) ((d.length : Int) - r.currentChunkPosition),
              currentPosition := r.currentPosition +
                min (remaining : Int) ((d.length : Int) - r.currentChunkPosition) }
            (remaining - (min (remaining : Int) ((d.length : Int) -
              r.currentChunkPosition)).toNat) hwf2 henv (by
            rw [readMeasure_some r d hd] at hf
            rw [readMeasure_some _ d rfl]
            dsimp only
            omega)
          refine ⟨(d.drop r.currentChunkPosition.toNat).take
              (min (remaining : Int) ((d.length : Int) -
                r.currentChunkPosition)).toNat ++ acc, r', ?_, ?_⟩
          · simp only [readLoop]
            rw [if_neg hrem, hd]
            dsimp only
            rw [if_neg htc, if_lt_eq_min, if_neg (by omega)]
            rw [heq]
          · have hcopied : ((d.drop r.currentChunkPosition.toNat).take
                (min (remaining : Int) ((d.length : Int) -
                  r.currentChunkPosition)).toNat).length =
                (min (remaining : Int) ((d.length : Int) -
                  r.currentChunkPosition)).toNat := by
              rw [List.length_take, List.length_drop]
              omega
            have hcne : (d.drop r.currentChunkPosition.toNat).take
                (min (remaining : Int) ((d.length : Int) -
                  r.currentChunkPosition)).toNat ≠ [] := by
              intro hnil
              rw [hnil] at hcopied
              simp at hcopied
              omega
            constructor
            · intro h
              exact absurd (List.append_eq_nil.mp h).1 hcne
            · intro h
              rcases h with h | h
              · exact absurd h hrem
              · exact absurd h (not_le.mpr hposL)

/-- Claim C4 (amended, proved): on a well-formed reader whose chunks are
fetchable, a Read into a positive-length buffer returns io.EOF exactly
when the current position is at or past the total length (and then zero
bytes are produced); the zero-length-buffer exception is witnessed by
the counterexample theorem. -/
theorem read_eof_iff_at_end (env : ChunkEnv) (r : objectReader) (n : Nat)
    (hwf : wfReader r) (henv : envGood env r.seekTable) (hn : 0 < n) :
    (∃ r', Read env r n = .ok ([], some Err.eof, r')) ↔
      r.totalLength ≤ r.currentPosition := by
  have hm : readMeasure r ≤ 2 * r.seekTable.length + 6 := by
    rcases hdd : r.currentChunkData with _ | d
    · rw [readMeasure_none r hdd]
      split_ifs <;> omega
    · rw [readMeasure_some r d hdd]
      omega
  obtain ⟨acc, r', heq, hiff⟩ := readLoop_ok env (n + 2 * r.seekTable.length + 8) r n hwf
    henv (by omega)
  unfold Read
  rw [heq]
  dsimp only
  by_cases hacc : acc = []
  · subst hacc
    simp only [List.length_nil, if_true]
    constructor
    · intro _
      rcases hiff.mp rfl with h | h
      · omega
      · exact h
    · intro _
      exact ⟨r', rfl⟩
  · rw [if_neg (fun h => hacc (List.length_eq_zero.mp h))]
    constructor
    · rintro ⟨r'', hr⟩
      simp at hr
    · intro hL
      exact absurd (hiff.mpr (Or.inr hL)) hacc

/-- Claim C4 witness: the amended theorem applied to the fresh one-chunk
reader with a one-byte buffer. -/
theorem read_eof_iff_at_end_witness :
    (∃ r', Read envOk rdr1 1 = .ok ([], some Err.eof, r')) ↔
      rdr1.totalLength ≤ rdr1.currentPosition :=
  read_eof_iff_at_end envOk rdr1 1 (by decide)
    (by
      intro e he
      have he' : e = ⟨0, 1, chunkOID⟩ := by
        simpa [rdr1, oneChunkTable] using he
      subst he'
      exact ⟨[7], rfl, by decide⟩)
    (by decide)

end Kopia
